import Mathlib

set_option maxHeartbeats 1000000

/-!
Verification of the DNF Azure AD authentication plugin
(`src/sources/azure_auth.py`) against its specification.

The file shallowly embeds the plugin:
Python strings become `String` (or `List Char` for the character-level
JWT decoding), the subprocess world becomes a function from invocations to
outcomes, exceptions become explicit constructors, and the `config` run
becomes a structurally recursive function producing a log of per-repo
outcomes, CLI invocations and resolution counts.
-/

namespace AzureAuthModel

/-- Entry of the live DNF repo registry (`self.base.repos.get(key)`):
the enabled flag and the base urls (the latter are used for diagnostics only). -/
structure Repo where
  enabled : Bool
  baseurl : List String
deriving DecidableEq

/-- The ways `az account get-access-token` is spawned by `get_token`:
either wrapped in `runuser -u <sudo_user> --` (privilege drop) or directly. -/
inductive Invocation where
  | runuser : String → Invocation
  | direct : Invocation
deriving DecidableEq

/-- Result of `json.loads(output.stdout)` followed by the `"accessToken"`
lookup, as far as `get_token` observes it: either `json.loads` raises
`JSONDecodeError` (`malformed`), or it yields a mapping in which the
`accessToken` field is present or absent. -/
inductive TokenData where
  | malformed : TokenData
  | parsed : Option String → TokenData
deriving DecidableEq

/-- Outcome of one `subprocess.run(cmd, check=True, ...)` call:
exit status 0 with parsed stdout, `CalledProcessError` (non-zero exit),
or `FileNotFoundError` (binary absent). -/
inductive CliOutcome where
  | success : TokenData → CliOutcome
  | processError : CliOutcome
  | notFound : CliOutcome
deriving DecidableEq

/-- Python exceptions that can escape `get_token` uncaught. -/
inductive PyError where
  | keyError : PyError
  | jsonDecodeError : PyError
  | fileNotFoundError : PyError
deriving DecidableEq

/-- Value of a `get_token` run: the `(access_token, source)` pair, the
`(None, None)` pair, or an uncaught exception propagating to the caller. -/
inductive GetTokenResult where
  | tok : String → String → GetTokenResult
  | noTok : GetTokenResult
  | raised : PyError → GetTokenResult
deriving DecidableEq

/-- First invocation `get_token` builds: privilege-dropped via `runuser`
when the `SUDO_USER` environment signal is present, direct otherwise. -/
def firstInvocation (sudoUser : Option String) : Invocation :=
  match sudoUser with
  | some u => Invocation.runuser u
  | none => Invocation.direct

/-- Embedding of `get_token` (azure_auth.py lines 142-214).  `sudoUser` is
`os.environ.get("SUDO_USER")`; `world` gives the outcome of each
`subprocess.run` spawn.  Returns the result together with the list of CLI
invocations performed, in order.

Control flow mirrored from the source:
* `SUDO_USER` present: run via `runuser`; on success parse stdout
  (`JSONDecodeError` is caught at line 207 and yields `(None, None)`;
  a missing `accessToken` key raises `KeyError`, which no `except` clause
  catches); on `CalledProcessError` retry once directly, where only
  `CalledProcessError` is caught (lines 190-203), so `JSONDecodeError`,
  `KeyError` and `FileNotFoundError` raised inside the retry propagate;
  on `FileNotFoundError` return `(None, None)` (lines 210-214).
* `SUDO_USER` absent: one direct invocation, same parsing, no retry. -/
def get_token (sudoUser : Option String) (world : Invocation → CliOutcome) :
    GetTokenResult × List Invocation :=
  match sudoUser with
  | some u =>
    match world (Invocation.runuser u) with
    | CliOutcome.success TokenData.malformed =>
        (GetTokenResult.noTok, [Invocation.runuser u])
    | CliOutcome.success (TokenData.parsed none) =>
        (GetTokenResult.raised PyError.keyError, [Invocation.runuser u])
    | CliOutcome.success (TokenData.parsed (some t)) =>
        (GetTokenResult.tok t ("az cli (via runuser as " ++ u ++ ")"),
         [Invocation.runuser u])
    | CliOutcome.processError =>
      match world Invocation.direct with
      | CliOutcome.success TokenData.malformed =>
          (GetTokenResult.raised PyError.jsonDecodeError,
           [Invocation.runuser u, Invocation.direct])
      | CliOutcome.success (TokenData.parsed none) =>
          (GetTokenResult.raised PyError.keyError,
           [Invocation.runuser u, Invocation.direct])
      | CliOutcome.success (TokenData.parsed (some t)) =>
          (GetTokenResult.tok t "az cli (direct fallback)",
           [Invocation.runuser u, Invocation.direct])
      | CliOutcome.processError =>
          (GetTokenResult.noTok, [Invocation.runuser u, Invocation.direct])
      | CliOutcome.notFound =>
          (GetTokenResult.raised PyError.fileNotFoundError,
           [Invocation.runuser u, Invocation.direct])
    | CliOutcome.notFound =>
        (GetTokenResult.noTok, [Invocation.runuser u])
  | none =>
    match world Invocation.direct with
    | CliOutcome.success TokenData.malformed =>
        (GetTokenResult.noTok, [Invocation.direct])
    | CliOutcome.success (TokenData.parsed none) =>
        (GetTokenResult.raised PyError.keyError, [Invocation.direct])
    | CliOutcome.success (TokenData.parsed (some t)) =>
        (GetTokenResult.tok t "az cli (direct)", [Invocation.direct])
    | CliOutcome.processError =>
        (GetTokenResult.noTok, [Invocation.direct])
    | CliOutcome.notFound =>
        (GetTokenResult.noTok, [Invocation.direct])

/-- Embedding of `AzureAuthConfigParser.parse_config` (lines 66-74):
every configured section except the reserved `main` section, in
declaration order. -/
def parse_config (sections : List String) : List String :=
  sections.filter (fun s => decide (s ≠ "main"))

/-- The two header lines `config` attaches (lines 123-128), in source order. -/
def applyHeaders (token : String) : List String :=
  ["x-ms-version: 2022-11-02", "Authorization: Bearer " ++ token]

/-- Per-repo outcome recorded by `config`: headers set via
`repo.set_http_headers(...)`, or the warning-level failure log. -/
inductive Outcome where
  | headersSet : List String → Outcome
  | failed : Outcome
deriving DecidableEq

/-- Whether a configured key is selected for an attachment attempt:
it must exist in the registry and be enabled (`if repo and repo.enabled`). -/
def isSelected (repos : String → Option Repo) (k : String) : Bool :=
  match repos k with
  | some r => r.enabled
  | none => false

/-! ## JSON claims model

`_print_token_details` feeds the base64-decoded JWT payload to
`json.loads`.  We model the claims values relevant to a JWT payload —
strings and non-negative integers (`iat`, `exp`, ...) — with `json.dumps`
as the encoder (default separators `", "` and `": "`) and a recursive
descent reader for the same flat-object fragment as the model of
`json.loads`. -/

/-- JSON claim value: a string or a non-negative integer. -/
inductive JVal where
  | str : List Char → JVal
  | num : Nat → JVal
deriving DecidableEq

/-- Decimal digit character, `48 + d` is the code of `'0' + d`. -/
def digitChar (d : Nat) : Char := Char.ofNat (48 + d)

/-- Little-endian decimal digits of `n` (as produced by repeated `% 10`). -/
def natDigitsRev (n : Nat) : List Char :=
  if _h : n < 10 then [digitChar n]
  else digitChar (n % 10) :: natDigitsRev (n / 10)
termination_by n
decreasing_by omega

/-- Decimal rendering of `n`, most significant digit first. -/
def natRepr (n : Nat) : List Char := (natDigitsRev n).reverse

/-- JSON string literal: the characters between double quotes
(the encoder is used only on strings needing no escapes). -/
def jStr (s : List Char) : List Char := '"' :: (s ++ ['"'])

/-- Rendering of one claim value. -/
def jVal : JVal → List Char
  | JVal.str s => jStr s
  | JVal.num n => natRepr n

/-- Rendering of one `"key": value` member (`json.dumps` item separator). -/
def jMemb (p : List Char × JVal) : List Char :=
  jStr p.1 ++ ':' :: ' ' :: jVal p.2

/-- Rendering of the member list, joined with `", "`. -/
def jMembers : List (List Char × JVal) → List Char
  | [] => []
  | [p] => jMemb p
  | p :: q :: rest => jMemb p ++ ',' :: ' ' :: jMembers (q :: rest)

/-- Rendering of a whole flat JSON object, the model of `json.dumps`. -/
def jEncode (m : List (List Char × JVal)) : List Char :=
  '\x7b' :: (jMembers m ++ ['\x7d'])

/-- A character a JSON string can hold verbatim: printable ASCII other
than the quote and the backslash (so `json.dumps` emits it unescaped). -/
def jsonSafeChar (c : Char) : Bool :=
  decide (c ≠ '"') && decide (c ≠ '\\') && decide (32 ≤ c.toNat) &&
    decide (c.toNat ≤ 126)

/-- All characters of the string are JSON-safe. -/
def jsonSafe (s : List Char) : Bool := s.all jsonSafeChar

/-- The value is rendered without escapes: any string in it is JSON-safe. -/
def jsonSafeVal : JVal → Bool
  | JVal.str s => jsonSafe s
  | JVal.num _ => true

/-- Claims map whose keys and string values are all JSON-safe. -/
def wfClaims (m : List (List Char × JVal)) : Bool :=
  m.all fun p => jsonSafe p.1 && jsonSafeVal p.2

/-- JSON whitespace accepted between tokens. -/
def isWs (c : Char) : Bool :=
  decide (c = ' ') || decide (c = '\t') || decide (c = '\n') || decide (c = '\r')

/-- Skip leading JSON whitespace. -/
def skipWs : List Char → List Char
  | [] => []
  | c :: cs => if isWs c then skipWs cs else c :: cs

/-- Decimal digit test. -/
def isDigitCh (c : Char) : Bool :=
  decide (48 ≤ c.toNat) && decide (c.toNat ≤ 57)

/-- Read a string-literal body up to the closing quote (no escapes:
a backslash makes the reader fail, matching the unescaped fragment the
encoder produces). -/
def parseStrBody : List Char → Option (List Char × List Char)
  | [] => none
  | c :: cs =>
    if c = '"' then some ([], cs)
    else if c = '\\' then none
    else
      match parseStrBody cs with
      | some (s, r) => some (c :: s, r)
      | none => none

/-- Longest leading run of decimal digits, plus the rest. -/
def takeDigits : List Char → List Char × List Char
  | [] => ([], [])
  | c :: cs =>
    if isDigitCh c then
      let p := takeDigits cs
      (c :: p.1, p.2)
    else ([], c :: cs)

/-- Value of a most-significant-first digit string. -/
def digitsVal (l : List Char) : Nat :=
  l.foldl (fun a c => a * 10 + (c.toNat - 48)) 0

/-- Read a non-negative integer literal. -/
def parseNum (s : List Char) : Option (Nat × List Char) :=
  match takeDigits s with
  | ([], _) => none
  | (ds, r) => some (digitsVal ds, r)

/-- Read one claim value: a string or an integer. -/
def parseJVal (s : List Char) : Option (JVal × List Char) :=
  match s with
  | [] => none
  | c :: rest =>
    if c = '"' then
      match parseStrBody rest with
      | some (t, r) => some (JVal.str t, r)
      | none => none
    else
      match parseNum (c :: rest) with
      | some (n, r) => some (JVal.num n, r)
      | none => none

/-- Read a non-empty `"key": value` member list (fuel bounds the member
count; each member consumes at least one character). -/
def parseMembers (fuel : Nat) (s : List Char) :
    Option (List (List Char × JVal) × List Char) :=
  match fuel with
  | 0 => none
  | fuel + 1 =>
    match s with
    | [] => none
    | c :: rest =>
      if c = '"' then
        match parseStrBody rest with
        | none => none
        | some (k, r1) =>
          match skipWs r1 with
          | [] => none
          | d :: r3 =>
            if d = ':' then
              match parseJVal (skipWs r3) with
              | none => none
              | some (v, r4) =>
                match skipWs r4 with
                | [] => some ([(k, v)], [])
                | e :: r5 =>
                  if e = ',' then
                    match parseMembers fuel (skipWs r5) with
                    | some (ms, r6) => some ((k, v) :: ms, r6)
                    | none => none
                  else some ([(k, v)], e :: r5)
            else none
      else none

/-- Model of `json.loads` on the flat-object fragment: a whole-input
JSON object, `none` where `json.loads` raises. -/
def jParse (s : List Char) : Option (List (List Char × JVal)) :=
  match skipWs s with
  | [] => none
  | c :: r1 =>
    if c = '\x7b' then
      match skipWs r1 with
      | [] => none
      | d :: r2 =>
        if d = '\x7d' then
          if (skipWs r2).isEmpty then some [] else none
        else
          match parseMembers ((d :: r2).length + 1) (d :: r2) with
          | some (ms, r3) =>
            match skipWs r3 with
            | [] => none
            | e :: r4 =>
              if e = '\x7d' then
                if (skipWs r4).isEmpty then some ms else none
              else none
          | none => none
    else none

/-! ## Base64 model

`_print_token_details` calls `base64.b64decode` on the re-padded JWT
payload.  We model the standard alphabet, the encoder, and a decoder
that discards non-alphabet characters and then consumes four-character
groups with strict trailing padding (failures become `none`, where the
library raises `binascii.Error`). -/

/-- The standard base64 alphabet, index = 6-bit value. -/
def b64chars : List Char :=
  ['A', 'B', 'C', 'D', 'E', 'F', 'G', 'H', 'I', 'J', 'K', 'L', 'M',
   'N', 'O', 'P', 'Q', 'R', 'S', 'T', 'U', 'V', 'W', 'X', 'Y', 'Z',
   'a', 'b', 'c', 'd', 'e', 'f', 'g', 'h', 'i', 'j', 'k', 'l', 'm',
   'n', 'o', 'p', 'q', 'r', 's', 't', 'u', 'v', 'w', 'x', 'y', 'z',
   '0', '1', '2', '3', '4', '5', '6', '7', '8', '9', '+', '/']

/-- Character of a 6-bit value. -/
def b64char (n : Nat) : Char := b64chars.getD n 'A'

/-- 6-bit value of an alphabet character. -/
def b64val (c : Char) : Nat := b64chars.indexOf c

/-- Membership in the base64 alphabet. -/
def isB64Char (c : Char) : Bool := b64chars.contains c

/-- Base64 encoding of a byte string (bytes as `Nat < 256`), with
standard `'='` padding. -/
def b64encode : List Nat → List Char
  | [] => []
  | [a] => [b64char (a / 4), b64char (a % 4 * 16), '=', '=']
  | [a, b] =>
      [b64char (a / 4), b64char (a % 4 * 16 + b / 16), b64char (b % 16 * 4), '=']
  | a :: b :: c :: rest =>
      b64char (a / 4) :: b64char (a % 4 * 16 + b / 16) ::
        b64char (b % 16 * 4 + c / 64) :: b64char (c % 64) :: b64encode rest

/-- Decode four-character groups, allowing `'='` padding only on the
last group. -/
def decodeGroups : List Char → Option (List Nat)
  | [] => some []
  | c1 :: c2 :: c3 :: c4 :: rest =>
    if decide (c1 = '=') || decide (c2 = '=') then none
    else
      let v1 := b64val c1
      let v2 := b64val c2
      if c3 = '=' then
        if decide (c4 = '=') && rest.isEmpty then some [v1 * 4 + v2 / 16]
        else none
      else
        let v3 := b64val c3
        if c4 = '=' then
          if rest.isEmpty then some [v1 * 4 + v2 / 16, v2 % 16 * 16 + v3 / 4]
          else none
        else
          let v4 := b64val c4
          match decodeGroups rest with
          | some bs =>
              some ((v1 * 4 + v2 / 16) :: (v2 % 16 * 16 + v3 / 4) ::
                (v3 % 4 * 64 + v4) :: bs)
          | none => none
  | _ => none

/-- Model of `base64.b64decode`: discard non-alphabet characters, require
a multiple-of-four length, then decode the groups. -/
def b64decode (s : List Char) : Option (List Nat) :=
  let t := s.filter (fun c => isB64Char c || decide (c = '='))
  if t.length % 4 = 0 then decodeGroups t else none

/-- Strip the trailing `'='` padding (the part of the encoding before the
first padding character). -/
def stripPad (s : List Char) : List Char :=
  s.takeWhile (fun c => decide (c ≠ '='))

/-! ## JWT diagnostics (`_print_token_details`, lines 240-298) -/

/-- Python `str.split(".")`: split into (possibly empty) dot-free pieces. -/
def splitDot : List Char → List (List Char)
  | [] => [[]]
  | c :: cs =>
    if c = '.' then [] :: splitDot cs
    else
      match splitDot cs with
      | t :: ts => (c :: t) :: ts
      | [] => [[c]]

/-- The padding restoration of lines 250-253: `padding = 4 - len % 4`,
appended when it is not 4. -/
def restorePad (payload : List Char) : List Char :=
  let padding := 4 - payload.length % 4
  if padding ≠ 4 then payload ++ List.replicate padding '=' else payload

/-- What the diagnostic decoder reports: the not-a-JWT notice (wrong
segment count), the decoded claims display, or the caught-exception
notice `Token decode failed: ... (token will still be used)`. -/
inductive TokenDetails where
  | notJwt : TokenDetails
  | decoded : List (List Char × JVal) → TokenDetails
  | decodeFailed : TokenDetails
deriving DecidableEq

/-- Exceptions the decode pipeline can raise inside the `try` block. -/
inductive DecodeExc where
  | binasciiError : DecodeExc
  | jsonError : DecodeExc
deriving DecidableEq

/-- Body of `_print_token_details` inside its `try` (lines 243-295):
split on dots; anything but exactly three segments is the not-a-JWT
notice; otherwise take the middle segment (`parts[1]`), restore padding,
base64-decode it and parse the claims; raised exceptions are the `error`
case. -/
def _token_details_body (l : List Char) : Except DecodeExc TokenDetails :=
  match splitDot l with
  | [_hd, payload, _sg] =>
    match b64decode (restorePad payload) with
    | none => Except.error DecodeExc.binasciiError
    | some bytes =>
      match jParse (bytes.map Char.ofNat) with
      | none => Except.error DecodeExc.jsonError
      | some claims => Except.ok (TokenDetails.decoded claims)
  | _ => Except.ok TokenDetails.notJwt

/-- Embedding of `_print_token_details`: the `except Exception` wrapper
(lines 297-298) turns any raised exception into the informational
decode-failure notice, so the function as a whole is total. -/
def _print_token_details (t : String) : TokenDetails :=
  match _token_details_body t.toList with
  | Except.ok d => d
  | Except.error _ => TokenDetails.decodeFailed

/-! ## The `config` run (`AzureAuth.config`, lines 86-139) -/

/-- Everything one run records: per-repo outcomes in order, CLI
invocations in order, the number of `get_token` calls, the diagnostic
decodings displayed in verbose mode, and the exception that aborted the
run, if any (on abort the lists cover the part of the run before it). -/
structure RunLog where
  outcomes : List (String × Outcome)
  invocations : List Invocation
  resolutions : Nat
  diags : List TokenDetails
  aborted : Option PyError
deriving DecidableEq

/-- Contribution of an attachment using an already-held token (the
`if token:` branch, lines 115-130): headers set, plus the verbose
diagnostic decode of the token. -/
def attachEntry (v : Bool) (key : String) (t : String) (r : RunLog) : RunLog :=
  { r with
    outcomes := (key, Outcome.headersSet (applyHeaders t)) :: r.outcomes,
    diags := (if v then [_print_token_details t] else []) ++ r.diags }

/-- Contribution of a failed acquisition for one repo (the
`else: logger.warning(...)` branch, lines 131-134). -/
def failEntry (key : String) (invs : List Invocation) (r : RunLog) : RunLog :=
  { outcomes := (key, Outcome.failed) :: r.outcomes,
    invocations := invs ++ r.invocations,
    resolutions := r.resolutions + 1,
    diags := r.diags,
    aborted := r.aborted }

/-- Contribution of an attachment right after a fresh resolution. -/
def attachResolved (v : Bool) (key : String) (t : String)
    (invs : List Invocation) (r : RunLog) : RunLog :=
  { outcomes := (key, Outcome.headersSet (applyHeaders t)) :: r.outcomes,
    invocations := invs ++ r.invocations,
    resolutions := r.resolutions + 1,
    diags := (if v then [_print_token_details t] else []) ++ r.diags,
    aborted := r.aborted }

/-- What happens at a repo that triggers `get_token` (line 114): on an
uncaught exception the run aborts there; on `(None, None)` the repo is
logged as failed and the loop continues with no token; on a token the
truthiness test `if token:` decides between attaching and the failure
log, and the loop continues holding that token.  `recNone`/`recTok` are
the continuations of the loop for the respective new token value. -/
def afterResolve (v : Bool) (key : String)
    (gt : GetTokenResult × List Invocation)
    (recNone : RunLog) (recTok : String → RunLog) : RunLog :=
  match gt.1 with
  | GetTokenResult.raised e =>
      { outcomes := [], invocations := gt.2, resolutions := 1,
        diags := [], aborted := some e }
  | GetTokenResult.noTok => failEntry key gt.2 recNone
  | GetTokenResult.tok t _src =>
      if t = "" then failEntry key gt.2 (recTok t)
      else attachResolved v key t gt.2 (recTok t)

/-- The `for key in azure_auth_map.keys():` loop (lines 110-136).
`token` is the current value of the Python `token` variable (`some ""`
and `none` are both falsy). -/
def configGo (v : Bool) (repos : String → Option Repo)
    (sudoUser : Option String) (world : Invocation → CliOutcome) :
    List String → Option String → RunLog
  | [], _ =>
      { outcomes := [], invocations := [], resolutions := 0,
        diags := [], aborted := none }
  | key :: rest, token =>
    match repos key with
    | none => configGo v repos sudoUser world rest token
    | some repo =>
      if repo.enabled then
        match token with
        | some t =>
          if t = "" then
            afterResolve v key (get_token sudoUser world)
              (configGo v repos sudoUser world rest none)
              (fun u => configGo v repos sudoUser world rest (some u))
          else attachEntry v key t (configGo v repos sudoUser world rest (some t))
        | none =>
          afterResolve v key (get_token sudoUser world)
            (configGo v repos sudoUser world rest none)
            (fun u => configGo v repos sudoUser world rest (some u))
      else configGo v repos sudoUser world rest token

/-- Embedding of `AzureAuth.config`: parse the section list, read the
`DNF_PLUGIN_AZURE_AUTH_TOKEN` override (`envToken` is `os.getenv`'s
result, `some ""` when set to the empty string), and run the loop. -/
def AzureAuth.config (v : Bool) (sections : List String)
    (repos : String → Option Repo) (envToken : Option String)
    (sudoUser : Option String) (world : Invocation → CliOutcome) : RunLog :=
  configGo v repos sudoUser world (parse_config sections) envToken

/-! ## Concrete environments used as witnesses and counterexamples -/

/-- A world where every CLI spawn exits 0 with valid JSON that lacks the
`accessToken` field (e.g. stdout `\x7b"tokenType": "Bearer"\x7d`). -/
def worldNoField : Invocation → CliOutcome :=
  fun _ => CliOutcome.success (TokenData.parsed none)

/-- A world where every CLI spawn exits non-zero. -/
def worldFail : Invocation → CliOutcome :=
  fun _ => CliOutcome.processError

/-- A world where every CLI spawn succeeds with token `"TOK"`. -/
def worldTok : Invocation → CliOutcome :=
  fun _ => CliOutcome.success (TokenData.parsed (some "TOK"))

/-- A world where the CLI binary is missing: every spawn raises
`FileNotFoundError`. -/
def worldAbsent : Invocation → CliOutcome :=
  fun _ => CliOutcome.notFound

/-- A world where the privilege-dropped spawn exits non-zero and the
direct spawn succeeds with token `"TOK"`. -/
def worldDropFails : Invocation → CliOutcome :=
  fun i =>
    match i with
    | Invocation.runuser _ => CliOutcome.processError
    | Invocation.direct => CliOutcome.success (TokenData.parsed (some "TOK"))

/-- A registry with repos `r1` and `r2`, both registered and enabled. -/
def regTwo : String → Option Repo :=
  fun k =>
    if k = "r1" then some ⟨true, []⟩
    else if k = "r2" then some ⟨true, []⟩
    else none

/-- The registry of the spec's selection scenario: `repo-a` registered and
enabled, `repo-b` registered but disabled, `repo-c` not registered. -/
def regMixed : String → Option Repo :=
  fun k =>
    if k = "repo-a" then some ⟨true, []⟩
    else if k = "repo-b" then some ⟨false, []⟩
    else none

end AzureAuthModel

namespace AzureAuthModel

/-! ## Lemmas about `get_token` -/

theorem get_token_invs_length (su : Option String)
    (world : Invocation → CliOutcome) :
    (get_token su world).2.length ≤ 2 := by
  rcases su with _ | u
  · cases h : world Invocation.direct with
    | success td =>
      cases td with
      | malformed => simp [get_token, h]
      | parsed t => cases t <;> simp [get_token, h]
    | processError => simp [get_token, h]
    | notFound => simp [get_token, h]
  · cases h : world (Invocation.runuser u) with
    | success td =>
      cases td with
      | malformed => simp [get_token, h]
      | parsed t => cases t <;> simp [get_token, h]
    | processError =>
      cases h2 : world Invocation.direct with
      | success td =>
        cases td with
        | malformed => simp [get_token, h, h2]
        | parsed t => cases t <;> simp [get_token, h, h2]
      | processError => simp [get_token, h, h2]
      | notFound => simp [get_token, h, h2]
    | notFound => simp [get_token, h]

theorem get_token_no_sudo_invs_length (world : Invocation → CliOutcome) :
    (get_token none world).2.length ≤ 1 := by
  cases h : world Invocation.direct with
  | success td =>
    cases td with
    | malformed => simp [get_token, h]
    | parsed t => cases t <;> simp [get_token, h]
  | processError => simp [get_token, h]
  | notFound => simp [get_token, h]

theorem get_token_not_found (su : Option String)
    (world : Invocation → CliOutcome)
    (h : world (firstInvocation su) = CliOutcome.notFound) :
    get_token su world = (GetTokenResult.noTok, [firstInvocation su]) := by
  rcases su with _ | u
  · simp only [firstInvocation] at h
    simp [get_token, firstInvocation, h]
  · simp only [firstInvocation] at h
    simp [get_token, firstInvocation, h]

theorem get_token_fallback (u : String) (world : Invocation → CliOutcome)
    (t : String)
    (h1 : world (Invocation.runuser u) = CliOutcome.processError)
    (h2 : world Invocation.direct = CliOutcome.success (TokenData.parsed (some t))) :
    get_token (some u) world =
      (GetTokenResult.tok t "az cli (direct fallback)",
       [Invocation.runuser u, Invocation.direct]) := by
  simp [get_token, h1, h2]

end AzureAuthModel

namespace AzureAuthModel

/-! ## Lemmas about the `config` loop -/

theorem configGo_some_token (v : Bool) (repos : String → Option Repo)
    (su : Option String) (world : Invocation → CliOutcome)
    (keys : List String) (t : String) (ht : ¬ t = "") :
    (configGo v repos su world keys (some t)).outcomes
        = (keys.filter (isSelected repos)).map
            (fun k => (k, Outcome.headersSet (applyHeaders t)))
      ∧ (configGo v repos su world keys (some t)).invocations = []
      ∧ (configGo v repos su world keys (some t)).resolutions = 0
      ∧ (configGo v repos su world keys (some t)).aborted = none := by
  induction keys with
  | nil => simp [configGo]
  | cons key rest ih =>
    cases hr : repos key with
    | none => simpa [configGo, hr, List.filter_cons, isSelected] using ih
    | some repo =>
      cases he : repo.enabled
      · simpa [configGo, hr, he, List.filter_cons, isSelected] using ih
      · simp [configGo, hr, he, ht, attachEntry, List.filter_cons, isSelected,
          ih.1, ih.2.1, ih.2.2.1, ih.2.2.2]

theorem configGo_outcome_keys (v : Bool) (repos : String → Option Repo)
    (su : Option String) (world : Invocation → CliOutcome)
    (keys : List String) :
    ∀ token, (configGo v repos su world keys token).aborted = none →
      (configGo v repos su world keys token).outcomes.map Prod.fst
        = keys.filter (isSelected repos) := by
  induction keys with
  | nil => intro token _; simp [configGo]
  | cons key rest ih =>
    intro token hab
    cases hr : repos key with
    | none =>
      simp only [configGo, hr] at hab ⊢
      simpa [List.filter_cons, isSelected, hr] using ih token hab
    | some repo =>
      cases he : repo.enabled
      · simp only [configGo, hr, he] at hab ⊢
        simpa [List.filter_cons, isSelected, hr, he] using ih token hab
      · rcases token with _ | t
        · rcases hgt : get_token su world with ⟨gr, invs⟩
          simp only [configGo, hr, he, hgt] at hab ⊢
          cases gr with
          | raised e => simp [afterResolve] at hab
          | noTok =>
            simp only [afterResolve, failEntry] at hab ⊢
            simp [List.filter_cons, isSelected, hr, he, ih none hab]
          | tok t' src =>
            by_cases ht' : t' = ""
            · simp only [afterResolve, failEntry, ht', if_pos rfl] at hab ⊢
              simp [List.filter_cons, isSelected, hr, he, ih (some "") hab]
            · simp only [afterResolve, attachResolved, if_neg ht'] at hab ⊢
              simp [List.filter_cons, isSelected, hr, he, ih (some t') hab]
        · by_cases ht : t = ""
          · subst ht
            rcases hgt : get_token su world with ⟨gr, invs⟩
            simp only [configGo, hr, he, hgt, if_pos rfl] at hab ⊢
            cases gr with
            | raised e => simp [afterResolve] at hab
            | noTok =>
              simp only [afterResolve, failEntry] at hab ⊢
              simp [List.filter_cons, isSelected, hr, he, ih none hab]
            | tok t' src =>
              by_cases ht' : t' = ""
              · simp only [afterResolve, failEntry, ht', if_pos rfl] at hab ⊢
                simp [List.filter_cons, isSelected, hr, he, ih (some "") hab]
              · simp only [afterResolve, attachResolved, if_neg ht'] at hab ⊢
                simp [List.filter_cons, isSelected, hr, he, ih (some t') hab]
          · simp only [configGo, hr, he, if_neg ht, attachEntry] at hab ⊢
            simp [List.filter_cons, isSelected, hr, he, ih (some t) hab]

end AzureAuthModel

namespace AzureAuthModel

theorem configGo_none_resolve_success (v : Bool) (repos : String → Option Repo)
    (su : Option String) (world : Invocation → CliOutcome)
    (keys : List String) (t src : String) (invs : List Invocation)
    (hg : get_token su world = (GetTokenResult.tok t src, invs))
    (ht : ¬ t = "") :
    (configGo v repos su world keys none).outcomes
        = (keys.filter (isSelected repos)).map
            (fun k => (k, Outcome.headersSet (applyHeaders t)))
      ∧ (configGo v repos su world keys none).resolutions
          = (if keys.filter (isSelected repos) = [] then 0 else 1)
      ∧ (configGo v repos su world keys none).invocations
          = (if keys.filter (isSelected repos) = [] then [] else invs)
      ∧ (configGo v repos su world keys none).aborted = none := by
  induction keys with
  | nil => simp [configGo]
  | cons key rest ih =>
    cases hr : repos key with
    | none => simpa [configGo, hr, List.filter_cons, isSelected] using ih
    | some repo =>
      cases he : repo.enabled
      · simpa [configGo, hr, he, List.filter_cons, isSelected] using ih
      · have hsome := configGo_some_token v repos su world rest t ht
        simp [configGo, hr, he, hg, afterResolve, ht, attachResolved,
          List.filter_cons, isSelected, hsome.1, hsome.2.1, hsome.2.2.1,
          hsome.2.2.2]

theorem configGo_none_noTok (v : Bool) (repos : String → Option Repo)
    (su : Option String) (world : Invocation → CliOutcome)
    (keys : List String) (invs : List Invocation)
    (hg : get_token su world = (GetTokenResult.noTok, invs)) :
    (configGo v repos su world keys none).outcomes
        = (keys.filter (isSelected repos)).map (fun k => (k, Outcome.failed))
      ∧ (configGo v repos su world keys none).aborted = none := by
  induction keys with
  | nil => simp [configGo]
  | cons key rest ih =>
    cases hr : repos key with
    | none => simpa [configGo, hr, List.filter_cons, isSelected] using ih
    | some repo =>
      cases he : repo.enabled
      · simpa [configGo, hr, he, List.filter_cons, isSelected] using ih
      · simp [configGo, hr, he, hg, afterResolve, failEntry,
          List.filter_cons, isSelected, ih.1, ih.2]

theorem configGo_empty_eq_none (v : Bool) (repos : String → Option Repo)
    (su : Option String) (world : Invocation → CliOutcome)
    (keys : List String) :
    configGo v repos su world keys (some "")
      = configGo v repos su world keys none := by
  induction keys with
  | nil => rfl
  | cons key rest ih =>
    cases hr : repos key with
    | none => simp [configGo, hr, ih]
    | some repo =>
      cases he : repo.enabled
      · simp [configGo, hr, he, ih]
      · simp [configGo, hr, he]

theorem configGo_headers_nonempty (v : Bool) (repos : String → Option Repo)
    (su : Option String) (world : Invocation → CliOutcome)
    (keys : List String) :
    ∀ token p, p ∈ (configGo v repos su world keys token).outcomes →
      p.2 = Outcome.failed ∨
        ∃ t, ¬ t = "" ∧ p.2 = Outcome.headersSet (applyHeaders t) := by
  induction keys with
  | nil => intro token p hp; simp [configGo] at hp
  | cons key rest ih =>
    intro token p hp
    cases hr : repos key with
    | none =>
      simp only [configGo, hr] at hp
      exact ih token p hp
    | some repo =>
      cases he : repo.enabled
      · simp only [configGo, hr, he] at hp
        exact ih token p hp
      · have resolveCase :
            p ∈ (afterResolve v key (get_token su world)
                  (configGo v repos su world rest none)
                  (fun u => configGo v repos su world rest (some u))).outcomes →
            p.2 = Outcome.failed ∨
              ∃ t, ¬ t = "" ∧ p.2 = Outcome.headersSet (applyHeaders t) := by
          intro hp'
          rcases hgt : get_token su world with ⟨gr, invs⟩
          rw [hgt] at hp'
          cases gr with
          | raised e => simp [afterResolve] at hp'
          | noTok =>
            simp only [afterResolve, failEntry, List.mem_cons] at hp'
            rcases hp' with rfl | hp'
            · exact Or.inl rfl
            · exact ih none p hp'
          | tok t' src =>
            by_cases ht' : t' = ""
            · simp only [afterResolve] at hp'
              rw [if_pos ht'] at hp'
              simp only [failEntry, List.mem_cons] at hp'
              rcases hp' with rfl | hp'
              · exact Or.inl rfl
              · exact ih (some t') p hp'
            · simp only [afterResolve] at hp'
              rw [if_neg ht'] at hp'
              simp only [attachResolved, List.mem_cons] at hp'
              rcases hp' with rfl | hp'
              · exact Or.inr ⟨t', ht', rfl⟩
              · exact ih (some t') p hp'
        rcases token with _ | t
        · simp only [configGo, hr, he] at hp
          exact resolveCase hp
        · by_cases ht : t = ""
          · subst ht
            simp only [configGo, hr, he, if_pos rfl] at hp
            exact resolveCase hp
          · simp [configGo, hr, he, ht, attachEntry] at hp
            rcases hp with rfl | hp
            · exact Or.inr ⟨t, ht, rfl⟩
            · exact ih (some t) p hp

theorem configGo_first_resolution (v : Bool) (repos : String → Option Repo)
    (su : Option String) (world : Invocation → CliOutcome)
    (keys : List String) :
    keys.filter (isSelected repos) ≠ [] →
      1 ≤ (configGo v repos su world keys none).resolutions := by
  induction keys with
  | nil => intro h; simp at h
  | cons key rest ih =>
    intro hsel
    cases hr : repos key with
    | none =>
      simp only [configGo, hr]
      refine ih ?_
      simpa [List.filter_cons, isSelected, hr] using hsel
    | some repo =>
      cases he : repo.enabled
      · simp only [configGo, hr, he, Bool.false_eq_true, if_neg]
        refine ih ?_
        simpa [List.filter_cons, isSelected, hr, he] using hsel
      · rcases hgt : get_token su world with ⟨gr, invs⟩
        simp only [configGo, hr, he, if_pos rfl, hgt]
        cases gr with
        | raised e => simp [afterResolve]
        | noTok => simp [afterResolve, failEntry]
        | tok t' src =>
          by_cases ht' : t' = ""
          · simp [afterResolve, ht', failEntry]
          · simp [afterResolve, ht', attachResolved]

theorem configGo_bounds (v : Bool) (repos : String → Option Repo)
    (su : Option String) (world : Invocation → CliOutcome)
    (keys : List String) :
    ∀ token,
      (configGo v repos su world keys token).resolutions
          ≤ (keys.filter (isSelected repos)).length
        ∧ (configGo v repos su world keys token).invocations.length
          ≤ 2 * (configGo v repos su world keys token).resolutions := by
  induction keys with
  | nil => intro token; simp [configGo]
  | cons key rest ih =>
    intro token
    cases hr : repos key with
    | none =>
      simpa [configGo, hr, List.filter_cons, isSelected] using ih token
    | some repo =>
      cases he : repo.enabled
      · simpa [configGo, hr, he, List.filter_cons, isSelected] using ih token
      · have hinv : (get_token su world).2.length ≤ 2 :=
          get_token_invs_length su world
        have resolveCase :
            (afterResolve v key (get_token su world)
                  (configGo v repos su world rest none)
                  (fun u => configGo v repos su world rest (some u))).resolutions
                ≤ ((key :: rest).filter (isSelected repos)).length
              ∧ (afterResolve v key (get_token su world)
                  (configGo v repos su world rest none)
                  (fun u => configGo v repos su world rest (some u))).invocations.length
                ≤ 2 * (afterResolve v key (get_token su world)
                  (configGo v repos su world rest none)
                  (fun u => configGo v repos su world rest (some u))).resolutions := by
          rcases hgt : get_token su world with ⟨gr, invs⟩
          rw [hgt] at hinv
          simp only at hinv
          have hlen : ((key :: rest).filter (isSelected repos)).length
              = (rest.filter (isSelected repos)).length + 1 := by
            simp [List.filter_cons, isSelected, hr, he]
          cases gr with
          | raised e =>
            simp only [afterResolve, hlen]
            omega
          | noTok =>
            obtain ⟨ih1, ih2⟩ := ih none
            simp only [afterResolve, failEntry, hlen, List.length_append]
            omega
          | tok t' src =>
            obtain ⟨ih1, ih2⟩ := ih (some t')
            by_cases ht' : t' = ""
            · simp only [afterResolve]
              rw [if_pos ht']
              simp only [failEntry, hlen, List.length_append]
              omega
            · simp only [afterResolve]
              rw [if_neg ht']
              simp only [attachResolved, hlen, List.length_append]
              omega
        rcases token with _ | t
        · simp only [configGo, hr, he, if_pos rfl]
          exact resolveCase
        · by_cases ht : t = ""
          · subst ht
            simp only [configGo, hr, he, if_pos rfl]
            exact resolveCase
          · obtain ⟨ih1, ih2⟩ := ih (some t)
            have hlen : ((key :: rest).filter (isSelected repos)).length
                = (rest.filter (isSelected repos)).length + 1 := by
              simp [List.filter_cons, isSelected, hr, he]
            simp [configGo, hr, he, ht, attachEntry, hlen]
            constructor
            · omega
            · omega

theorem configGo_verbose_outcomes (repos : String → Option Repo)
    (su : Option String) (world : Invocation → CliOutcome)
    (keys : List String) :
    ∀ token,
      (configGo true repos su world keys token).outcomes
        = (configGo false repos su world keys token).outcomes := by
  induction keys with
  | nil => intro token; rfl
  | cons key rest ih =>
    intro token
    cases hr : repos key with
    | none => simp only [configGo, hr]; exact ih token
    | some repo =>
      cases he : repo.enabled
      · simp only [configGo, hr, he, Bool.false_eq_true, if_neg]
        exact ih token
      · have resolveCase :
            (afterResolve true key (get_token su world)
                  (configGo true repos su world rest none)
                  (fun u => configGo true repos su world rest (some u))).outcomes
              = (afterResolve false key (get_token su world)
                  (configGo false repos su world rest none)
                  (fun u => configGo false repos su world rest (some u))).outcomes := by
          rcases hgt : get_token su world with ⟨gr, invs⟩
          cases gr with
          | raised e => simp [afterResolve]
          | noTok => simp [afterResolve, failEntry, ih none]
          | tok t' src =>
            by_cases ht' : t' = ""
            · simp [afterResolve, ht', failEntry, ih (some "")]
            · simp [afterResolve, ht', attachResolved, ih (some t')]
        rcases token with _ | t
        · simp only [configGo, hr, he, if_pos rfl]
          exact resolveCase
        · by_cases ht : t = ""
          · subst ht
            simp only [configGo, hr, he, if_pos rfl]
            exact resolveCase
          · simp only [configGo, hr, he, if_neg ht, attachEntry]
            simp [ih (some t)]

end AzureAuthModel

namespace AzureAuthModel

/-! ## Claim theorems (control-flow claims) -/

/-- Claim C1, settled against the code: when the identity CLI exits
successfully and its output parses as structured data but the access-token
field is absent, `get_token` does not return `(None, None)` — the
`token_data["accessToken"]` lookup raises a `KeyError` that no `except`
clause catches, and the `config` run aborts with no target processed
instead of continuing.  This contradicts the claim (and `get_token`'s own
docstring, which promises `(None, None)` on failure). -/
theorem c1_missing_field_raises :
    get_token none worldNoField
        = (GetTokenResult.raised PyError.keyError, [Invocation.direct])
      ∧ (AzureAuth.config false ["r1", "r2"] regTwo none none
          worldNoField).aborted = some PyError.keyError
      ∧ (AzureAuth.config false ["r1", "r2"] regTwo none none
          worldNoField).outcomes = [] := by
  exact ⟨rfl, rfl, rfl⟩

/-- Claim C2 as stated is false on the code: with two enabled targets, no
override and a CLI that keeps failing (no elevated-privilege signal, so
the claim allows at most one direct invocation), the run performs two
credential resolutions and two CLI invocations — `config` re-enters
`get_token` for every enabled target while the token is still absent. -/
theorem c2_counterexample :
    ¬ ((AzureAuth.config false ["r1", "r2"] regTwo none none
          worldFail).resolutions ≤ 1)
      ∧ ¬ ((AzureAuth.config false ["r1", "r2"] regTwo none none
          worldFail).invocations.length ≤ 1) := by
  have h1 : (AzureAuth.config false ["r1", "r2"] regTwo none none
      worldFail).resolutions = 2 := rfl
  have h2 : (AzureAuth.config false ["r1", "r2"] regTwo none none
      worldFail).invocations.length = 2 := rfl
  omega

/-- Claim C2 (amended): for every run without an override, each credential
resolution invokes the identity CLI at most twice (at most once when the
elevated-privilege signal is absent), and the number of resolutions is
bounded by the number of selected targets — not by one: while acquisition
keeps failing, each subsequent enabled target triggers a fresh resolution,
so the CLI is invoked at most twice per resolution rather than at most
twice per run. -/
theorem c2_amended_resolution_bounds (v : Bool) (sections : List String)
    (repos : String → Option Repo) (su : Option String)
    (world : Invocation → CliOutcome) :
    (get_token su world).2.length ≤ 2
      ∧ (su = none → (get_token su world).2.length ≤ 1)
      ∧ (AzureAuth.config v sections repos none su world).resolutions
          ≤ ((parse_config sections).filter (isSelected repos)).length
      ∧ (AzureAuth.config v sections repos none su world).invocations.length
          ≤ 2 * (AzureAuth.config v sections repos none su world).resolutions := by
  refine ⟨get_token_invs_length su world, ?_, ?_, ?_⟩
  · rintro rfl
    exact get_token_no_sudo_invs_length world
  · exact (configGo_bounds v repos su world (parse_config sections) none).1
  · exact (configGo_bounds v repos su world (parse_config sections) none).2

/-- Witness for the amended C2 bounds at a concrete run. -/
theorem c2_amended_resolution_bounds_witness :
    (get_token none worldFail).2.length ≤ 2
      ∧ ((none : Option String) = none → (get_token none worldFail).2.length ≤ 1)
      ∧ (AzureAuth.config false ["r1", "r2"] regTwo none none
            worldFail).resolutions
          ≤ ((parse_config ["r1", "r2"]).filter (isSelected regTwo)).length
      ∧ (AzureAuth.config false ["r1", "r2"] regTwo none none
            worldFail).invocations.length
          ≤ 2 * (AzureAuth.config false ["r1", "r2"] regTwo none none
            worldFail).resolutions :=
  c2_amended_resolution_bounds false ["r1", "r2"] regTwo none worldFail

/-- Claim C3 (confirmed): for every run without an override whose (single)
acquisition yields a non-empty token, and with at least one selected
target, exactly one credential resolution occurs and every selected target
receives the identical bearer-token header pair. -/
theorem c3_single_resolution_shared_token (v : Bool) (sections : List String)
    (repos : String → Option Repo) (su : Option String)
    (world : Invocation → CliOutcome) (t src : String)
    (invs : List Invocation)
    (hg : get_token su world = (GetTokenResult.tok t src, invs))
    (ht : ¬ t = "")
    (hsel : (parse_config sections).filter (isSelected repos) ≠ []) :
    (AzureAuth.config v sections repos none su world).resolutions = 1
      ∧ (AzureAuth.config v sections repos none su world).outcomes
          = ((parse_config sections).filter (isSelected repos)).map
              (fun k => (k, Outcome.headersSet (applyHeaders t))) := by
  have h := configGo_none_resolve_success v repos su world
    (parse_config sections) t src invs hg ht
  refine ⟨?_, h.1⟩
  have h2 := h.2.1
  rw [if_neg hsel] at h2
  exact h2

/-- Witness for C3: one enabled repo, a succeeding CLI. -/
theorem c3_single_resolution_shared_token_witness :
    (AzureAuth.config false ["r1"] regTwo none none worldTok).resolutions = 1
      ∧ (AzureAuth.config false ["r1"] regTwo none none worldTok).outcomes
          = ((parse_config ["r1"]).filter (isSelected regTwo)).map
              (fun k => (k, Outcome.headersSet (applyHeaders "TOK"))) :=
  c3_single_resolution_shared_token false ["r1"] regTwo none worldTok "TOK"
    "az cli (direct)" [Invocation.direct] rfl (by decide) (by decide)

/-- Claim C4 (confirmed): with a present, non-empty override credential the
run performs no resolution and no CLI invocation at all, and every selected
target gets the override value verbatim in its bearer header. -/
theorem c4_override_bypasses_cli (v : Bool) (sections : List String)
    (repos : String → Option Repo) (su : Option String)
    (world : Invocation → CliOutcome) (s : String) (hs : ¬ s = "") :
    (AzureAuth.config v sections repos (some s) su world).resolutions = 0
      ∧ (AzureAuth.config v sections repos (some s) su world).invocations = []
      ∧ (AzureAuth.config v sections repos (some s) su world).outcomes
          = ((parse_config sections).filter (isSelected repos)).map
              (fun k => (k, Outcome.headersSet (applyHeaders s)))
      ∧ (AzureAuth.config v sections repos (some s) su world).aborted = none := by
  have h := configGo_some_token v repos su world (parse_config sections) s hs
  exact ⟨h.2.2.1, h.2.1, h.1, h.2.2.2⟩

/-- Witness for C4: two enabled repos, an override, and a CLI world that
would fail if it were ever consulted. -/
theorem c4_override_bypasses_cli_witness :
    (AzureAuth.config false ["r1", "r2"] regTwo (some "OV") (some "bob")
        worldFail).resolutions = 0
      ∧ (AzureAuth.config false ["r1", "r2"] regTwo (some "OV") (some "bob")
          worldFail).invocations = []
      ∧ (AzureAuth.config false ["r1", "r2"] regTwo (some "OV") (some "bob")
          worldFail).outcomes
          = ((parse_config ["r1", "r2"]).filter (isSelected regTwo)).map
              (fun k => (k, Outcome.headersSet (applyHeaders "OV")))
      ∧ (AzureAuth.config false ["r1", "r2"] regTwo (some "OV") (some "bob")
          worldFail).aborted = none :=
  c4_override_bypasses_cli false ["r1", "r2"] regTwo (some "bob") worldFail
    "OV" (by decide)

/-- Claim C5 as stated is false on the code: it promises unconditionally
that every enabled and registered configured target gets an outcome, but
with repos `r1` and `r2` both registered and enabled and a CLI that exits
0 with valid JSON lacking the access-token field, the uncaught `KeyError`
(the C1 defect) aborts the run and neither target receives an outcome
entry: the attempted-target list is empty instead of `[r1, r2]`. -/
theorem c5_counterexample :
    ¬ ((AzureAuth.config false ["r1", "r2"] regTwo none none
          worldNoField).outcomes.map Prod.fst
        = (parse_config ["r1", "r2"]).filter (isSelected regTwo)) := by
  intro h
  have h1 : (AzureAuth.config false ["r1", "r2"] regTwo none none
      worldNoField).outcomes.map Prod.fst = [] := rfl
  have h2 : (parse_config ["r1", "r2"]).filter (isSelected regTwo)
      = ["r1", "r2"] := rfl
  rw [h1, h2] at h
  exact List.noConfusion h

/-- Claim C5 (amended): in every run that completes without an uncaught
acquisition exception, the targets that receive an attachment attempt
(and hence an outcome entry) are exactly the configured identifiers other
than the reserved `main` section that are registered and enabled, in
configuration order; disabled or unregistered configured targets produce
no outcome entry, and every enabled registered one gets an outcome. -/
theorem c5_selection (v : Bool) (sections : List String)
    (repos : String → Option Repo) (envToken su : Option String)
    (world : Invocation → CliOutcome)
    (hab : (AzureAuth.config v sections repos envToken su world).aborted = none) :
    (AzureAuth.config v sections repos envToken su world).outcomes.map Prod.fst
      = (parse_config sections).filter (isSelected repos) :=
  configGo_outcome_keys v repos su world (parse_config sections) envToken hab

/-- Witness for C5, the spec's own scenario: sections `main`, `repo-a`,
`repo-b`, `repo-c`; registry with `repo-a` enabled, `repo-b` disabled,
`repo-c` absent; the selection is `[repo-a]` only. -/
theorem c5_selection_witness :
    (AzureAuth.config false ["main", "repo-a", "repo-b", "repo-c"] regMixed
        none none worldTok).outcomes.map Prod.fst
      = (parse_config ["main", "repo-a", "repo-b", "repo-c"]).filter
          (isSelected regMixed) :=
  c5_selection false ["main", "repo-a", "repo-b", "repo-c"] regMixed none
    none worldTok (by decide)

/-- Claim C6 (confirmed): with the elevated-privilege signal present, a
failing privilege-dropped invocation and a succeeding direct retry,
`get_token` performs exactly the two invocations (the retry is not
retried) and returns the token with the fallback-direct provenance label. -/
theorem c6_fallback_direct (u : String) (world : Invocation → CliOutcome)
    (t : String)
    (h1 : world (Invocation.runuser u) = CliOutcome.processError)
    (h2 : world Invocation.direct
        = CliOutcome.success (TokenData.parsed (some t))) :
    get_token (some u) world
      = (GetTokenResult.tok t "az cli (direct fallback)",
         [Invocation.runuser u, Invocation.direct]) :=
  get_token_fallback u world t h1 h2

/-- Witness for C6 at a concrete world. -/
theorem c6_fallback_direct_witness :
    get_token (some "bob") worldDropFails
      = (GetTokenResult.tok "TOK" "az cli (direct fallback)",
         [Invocation.runuser "bob", Invocation.direct]) :=
  c6_fallback_direct "bob" worldDropFails "TOK" rfl rfl

/-- Claim C7 (confirmed): when the process spawn of the first invocation
fails with `FileNotFoundError` (CLI binary absent), `get_token` returns
absent after that single invocation — no retry, also on the
privilege-dropped path — and the run completes without raising, with every
selected target logged as failed. -/
theorem c7_cli_absent (v : Bool) (sections : List String)
    (repos : String → Option Repo) (su : Option String)
    (world : Invocation → CliOutcome)
    (h : world (firstInvocation su) = CliOutcome.notFound) :
    get_token su world = (GetTokenResult.noTok, [firstInvocation su])
      ∧ (AzureAuth.config v sections repos none su world).outcomes
          = ((parse_config sections).filter (isSelected repos)).map
              (fun k => (k, Outcome.failed))
      ∧ (AzureAuth.config v sections repos none su world).aborted = none := by
  have hg := get_token_not_found su world h
  have h2 := configGo_none_noTok v repos su world (parse_config sections)
    [firstInvocation su] hg
  exact ⟨hg, h2.1, h2.2⟩

/-- Witness for C7: privilege-drop signalled, binary absent, two enabled
repos — both logged as failed, run completed. -/
theorem c7_cli_absent_witness :
    get_token (some "bob") worldAbsent
        = (GetTokenResult.noTok, [firstInvocation (some "bob")])
      ∧ (AzureAuth.config false ["r1", "r2"] regTwo none (some "bob")
            worldAbsent).outcomes
          = ((parse_config ["r1", "r2"]).filter (isSelected regTwo)).map
              (fun k => (k, Outcome.failed))
      ∧ (AzureAuth.config false ["r1", "r2"] regTwo none (some "bob")
            worldAbsent).aborted = none :=
  c7_cli_absent false ["r1", "r2"] regTwo (some "bob") worldAbsent rfl

/-- Claim C10 (confirmed): an override set to the empty string behaves
exactly as if it were absent — the whole run log is identical to the
no-override run; an empty credential is never attached (every headers
outcome carries a non-empty token); and as soon as there is a selected
target, the identity CLI is consulted (at least one resolution). -/
theorem c10_empty_override (v : Bool) (sections : List String)
    (repos : String → Option Repo) (su : Option String)
    (world : Invocation → CliOutcome) :
    AzureAuth.config v sections repos (some "") su world
        = AzureAuth.config v sections repos none su world
      ∧ (∀ p ∈ (AzureAuth.config v sections repos (some "") su world).outcomes,
          p.2 = Outcome.failed ∨
            ∃ t, ¬ t = "" ∧ p.2 = Outcome.headersSet (applyHeaders t))
      ∧ ((parse_config sections).filter (isSelected repos) ≠ [] →
          1 ≤ (AzureAuth.config v sections repos (some "") su world).resolutions) := by
  refine ⟨configGo_empty_eq_none v repos su world (parse_config sections),
    ?_, ?_⟩
  · intro p hp
    exact configGo_headers_nonempty v repos su world (parse_config sections)
      (some "") p hp
  · intro hsel
    show 1 ≤ (configGo v repos su world (parse_config sections)
      (some "")).resolutions
    rw [configGo_empty_eq_none v repos su world (parse_config sections)]
    exact configGo_first_resolution v repos su world (parse_config sections) hsel

/-- Witness for C10 at a concrete run with one enabled repo. -/
theorem c10_empty_override_witness :
    AzureAuth.config false ["r1"] regTwo (some "") none worldTok
        = AzureAuth.config false ["r1"] regTwo none none worldTok
      ∧ 1 ≤ (AzureAuth.config false ["r1"] regTwo (some "") none
          worldTok).resolutions :=
  ⟨(c10_empty_override false ["r1"] regTwo none worldTok).1,
   (c10_empty_override false ["r1"] regTwo none worldTok).2.2 (by decide)⟩

end AzureAuthModel

namespace AzureAuthModel

/-! ## Lemmas about the base64 model -/

theorem b64val_b64char : ∀ n, n < 64 → b64val (b64char n) = n := by decide

theorem isB64Char_b64char : ∀ n, n < 64 → isB64Char (b64char n) = true := by
  decide

theorem b64char_ne_pad : ∀ n, n < 64 → ¬ b64char n = '=' := by decide

theorem b64char_ne_dot : ∀ n, n < 64 → ¬ b64char n = '.' := by decide

theorem b64encode_mem : ∀ (l : List Nat), (∀ x ∈ l, x < 256) →
    ∀ c ∈ b64encode l, (∃ n, n < 64 ∧ c = b64char n) ∨ c = '='
  | [], _, c, hc => by simp [b64encode] at hc
  | [a], h, c, hc => by
    have ha : a < 256 := h a (by simp)
    simp only [b64encode, List.mem_cons, List.not_mem_nil, or_false] at hc
    rcases hc with rfl | rfl | rfl | rfl
    · exact Or.inl ⟨a / 4, by omega, rfl⟩
    · exact Or.inl ⟨a % 4 * 16, by omega, rfl⟩
    · exact Or.inr rfl
    · exact Or.inr rfl
  | [a, b], h, c, hc => by
    have ha : a < 256 := h a (by simp)
    have hb : b < 256 := h b (by simp)
    simp only [b64encode, List.mem_cons, List.not_mem_nil, or_false] at hc
    rcases hc with rfl | rfl | rfl | rfl
    · exact Or.inl ⟨a / 4, by omega, rfl⟩
    · exact Or.inl ⟨a % 4 * 16 + b / 16, by omega, rfl⟩
    · exact Or.inl ⟨b % 16 * 4, by omega, rfl⟩
    · exact Or.inr rfl
  | a :: b :: d :: rest, h, c, hc => by
    have ha : a < 256 := h a (by simp)
    have hb : b < 256 := h b (by simp)
    have hd : d < 256 := h d (by simp)
    simp only [b64encode, List.mem_cons] at hc
    rcases hc with rfl | rfl | rfl | rfl | hc
    · exact Or.inl ⟨a / 4, by omega, rfl⟩
    · exact Or.inl ⟨a % 4 * 16 + b / 16, by omega, rfl⟩
    · exact Or.inl ⟨b % 16 * 4 + d / 64, by omega, rfl⟩
    · exact Or.inl ⟨d % 64, by omega, rfl⟩
    · exact b64encode_mem rest (fun x hx => h x (by simp [hx])) c hc

theorem decodeGroups_b64encode : ∀ (l : List Nat), (∀ x ∈ l, x < 256) →
    decodeGroups (b64encode l) = some l
  | [], _ => rfl
  | [a], h => by
    have ha : a < 256 := h a (by simp)
    have h1 := b64char_ne_pad (a / 4) (by omega)
    have h2 := b64char_ne_pad (a % 4 * 16) (by omega)
    simp [b64encode, decodeGroups, h1, h2,
      b64val_b64char (a / 4) (by omega),
      b64val_b64char (a % 4 * 16) (by omega)]
    omega
  | [a, b], h => by
    have ha : a < 256 := h a (by simp)
    have hb : b < 256 := h b (by simp)
    have h1 := b64char_ne_pad (a / 4) (by omega)
    have h2 := b64char_ne_pad (a % 4 * 16 + b / 16) (by omega)
    have h3 := b64char_ne_pad (b % 16 * 4) (by omega)
    simp [b64encode, decodeGroups, h1, h2, h3,
      b64val_b64char (a / 4) (by omega),
      b64val_b64char (a % 4 * 16 + b / 16) (by omega),
      b64val_b64char (b % 16 * 4) (by omega)]
    omega
  | a :: b :: d :: rest, h => by
    have ha : a < 256 := h a (by simp)
    have hb : b < 256 := h b (by simp)
    have hd : d < 256 := h d (by simp)
    have h1 := b64char_ne_pad (a / 4) (by omega)
    have h2 := b64char_ne_pad (a % 4 * 16 + b / 16) (by omega)
    have h3 := b64char_ne_pad (b % 16 * 4 + d / 64) (by omega)
    have h4 := b64char_ne_pad (d % 64) (by omega)
    have ih := decodeGroups_b64encode rest (fun x hx => h x (by simp [hx]))
    simp [b64encode, decodeGroups, h1, h2, h3, h4, ih,
      b64val_b64char (a / 4) (by omega),
      b64val_b64char (a % 4 * 16 + b / 16) (by omega),
      b64val_b64char (b % 16 * 4 + d / 64) (by omega),
      b64val_b64char (d % 64) (by omega)]
    omega

theorem b64encode_length_mod : ∀ (l : List Nat), (b64encode l).length % 4 = 0
  | [] => by simp [b64encode]
  | [a] => by simp [b64encode]
  | [a, b] => by simp [b64encode]
  | a :: b :: d :: rest => by
    simp only [b64encode, List.length_cons]
    have := b64encode_length_mod rest
    omega

theorem takeWhile_append_all {p : Char → Bool} :
    ∀ (xs ys : List Char), (∀ c ∈ xs, p c = true) →
      (xs ++ ys).takeWhile p = xs ++ ys.takeWhile p
  | [], _, _ => rfl
  | x :: xs, ys, h => by
    have hx : p x = true := h x (by simp)
    simp only [List.cons_append, List.takeWhile_cons, hx, if_true]
    rw [takeWhile_append_all xs ys (fun c hc => h c (by simp [hc]))]

theorem restorePad_cons4 (c1 c2 c3 c4 : Char) (s : List Char) :
    restorePad (c1 :: c2 :: c3 :: c4 :: s)
      = c1 :: c2 :: c3 :: c4 :: restorePad s := by
  simp only [restorePad, List.length_cons]
  have h : (s.length + 1 + 1 + 1 + 1) % 4 = s.length % 4 := by omega
  rw [h]
  by_cases hmod : 4 - s.length % 4 = 4
  · rw [if_neg (by omega), if_neg (by omega)]
  · rw [if_pos (by omega), if_pos (by omega)]
    rfl

theorem restorePad_stripPad : ∀ (l : List Nat), (∀ x ∈ l, x < 256) →
    restorePad (stripPad (b64encode l)) = b64encode l
  | [], _ => rfl
  | [a], h => by
    have ha : a < 256 := h a (by simp)
    have h1 := b64char_ne_pad (a / 4) (by omega)
    have h2 := b64char_ne_pad (a % 4 * 16) (by omega)
    simp [b64encode, stripPad, restorePad, List.takeWhile_cons, h1, h2,
      List.replicate_succ]
  | [a, b], h => by
    have ha : a < 256 := h a (by simp)
    have hb : b < 256 := h b (by simp)
    have h1 := b64char_ne_pad (a / 4) (by omega)
    have h2 := b64char_ne_pad (a % 4 * 16 + b / 16) (by omega)
    have h3 := b64char_ne_pad (b % 16 * 4) (by omega)
    simp [b64encode, stripPad, restorePad, List.takeWhile_cons, h1, h2, h3,
      List.replicate_succ]
  | a :: b :: d :: rest, h => by
    have ha : a < 256 := h a (by simp)
    have hb : b < 256 := h b (by simp)
    have hd : d < 256 := h d (by simp)
    have h1 := b64char_ne_pad (a / 4) (by omega)
    have h2 := b64char_ne_pad (a % 4 * 16 + b / 16) (by omega)
    have h3 := b64char_ne_pad (b % 16 * 4 + d / 64) (by omega)
    have h4 := b64char_ne_pad (d % 64) (by omega)
    have ih := restorePad_stripPad rest (fun x hx => h x (by simp [hx]))
    have hsplit : stripPad (b64encode (a :: b :: d :: rest))
        = b64char (a / 4) :: b64char (a % 4 * 16 + b / 16) ::
            b64char (b % 16 * 4 + d / 64) :: b64char (d % 64) ::
            stripPad (b64encode rest) := by
      show ([b64char (a / 4), b64char (a % 4 * 16 + b / 16),
          b64char (b % 16 * 4 + d / 64), b64char (d % 64)]
            ++ b64encode rest).takeWhile (fun c => decide (c ≠ '=')) = _
      rw [takeWhile_append_all]
      · rfl
      · intro c hc
        simp only [List.mem_cons, List.not_mem_nil, or_false] at hc
        rcases hc with rfl | rfl | rfl | rfl <;> simp [*]
    rw [hsplit, restorePad_cons4, ih]
    rfl

theorem b64decode_restorePad (l : List Nat) (h : ∀ x ∈ l, x < 256) :
    b64decode (restorePad (stripPad (b64encode l))) = some l := by
  rw [restorePad_stripPad l h]
  have hfilter : (b64encode l).filter
      (fun c => isB64Char c || decide (c = '=')) = b64encode l := by
    apply List.filter_eq_self.mpr
    intro c hc
    rcases b64encode_mem l h c hc with ⟨n, hn, rfl⟩ | rfl
    · simp [isB64Char_b64char n hn]
    · simp
  simp only [b64decode, hfilter]
  rw [if_pos (b64encode_length_mod l)]
  exact decodeGroups_b64encode l h

end AzureAuthModel

namespace AzureAuthModel

/-! ## Lemmas about `splitDot` and `takeWhile` membership -/

theorem splitDot_no_dot : ∀ (xs : List Char), (∀ c ∈ xs, ¬ c = '.') →
    splitDot xs = [xs]
  | [], _ => rfl
  | x :: xs, h => by
    have hx : ¬ x = '.' := h x (by simp)
    simp only [splitDot, if_neg hx]
    rw [splitDot_no_dot xs (fun c hc => h c (by simp [hc]))]

theorem splitDot_append_dot : ∀ (xs ys : List Char), (∀ c ∈ xs, ¬ c = '.') →
    splitDot (xs ++ '.' :: ys) = xs :: splitDot ys
  | [], ys, _ => by simp [splitDot]
  | x :: xs, ys, h => by
    have hx : ¬ x = '.' := h x (by simp)
    simp only [List.cons_append, splitDot, if_neg hx, List.append_eq]
    rw [splitDot_append_dot xs ys (fun c hc => h c (by simp [hc]))]

theorem mem_takeWhile {p : Char → Bool} :
    ∀ (s : List Char) (c : Char), c ∈ s.takeWhile p → c ∈ s ∧ p c = true
  | [], c, h => by simp [List.takeWhile_nil] at h
  | x :: xs, c, h => by
    rw [List.takeWhile_cons] at h
    by_cases hx : p x = true
    · rw [if_pos hx] at h
      rcases List.mem_cons.mp h with rfl | h'
      · exact ⟨by simp, hx⟩
      · obtain ⟨h1, h2⟩ := mem_takeWhile xs c h'
        exact ⟨by simp [h1], h2⟩
    · rw [if_neg hx] at h
      simp at h

/-! ## Lemmas about the decimal-digit model -/

theorem digitChar_facts : ∀ d, d < 10 →
    isDigitCh (digitChar d) = true ∧ (digitChar d).toNat - 48 = d ∧
    ¬ digitChar d = '"' ∧ isWs (digitChar d) = false ∧
    (digitChar d).toNat ≤ 126 := by decide

theorem natDigitsRev_digits (n : Nat) :
    natDigitsRev n ≠ [] ∧
      ∀ c ∈ natDigitsRev n, ∃ d, d < 10 ∧ c = digitChar d := by
  induction n using Nat.strong_induction_on with
  | _ n ih =>
    rw [natDigitsRev]
    by_cases h : n < 10
    · rw [dif_pos h]
      refine ⟨by simp, ?_⟩
      intro c hc
      simp only [List.mem_cons, List.not_mem_nil, or_false] at hc
      exact ⟨n, h, hc⟩
    · rw [dif_neg h]
      obtain ⟨_hne, hall⟩ := ih (n / 10) (by omega)
      refine ⟨by simp, ?_⟩
      intro c hc
      rcases List.mem_cons.mp hc with rfl | hc'
      · exact ⟨n % 10, by omega, rfl⟩
      · exact hall c hc'

theorem natRepr_ne_nil (n : Nat) : natRepr n ≠ [] := by
  have := (natDigitsRev_digits n).1
  simp [natRepr, List.reverse_eq_nil_iff]
  exact this

theorem natRepr_digits (n : Nat) :
    ∀ c ∈ natRepr n, ∃ d, d < 10 ∧ c = digitChar d := by
  intro c hc
  rw [natRepr, List.mem_reverse] at hc
  exact (natDigitsRev_digits n).2 c hc

theorem natRepr_head (n : Nat) :
    ∃ c cs, natRepr n = c :: cs ∧ ∃ d, d < 10 ∧ c = digitChar d := by
  cases hh : natRepr n with
  | nil => exact absurd hh (natRepr_ne_nil n)
  | cons c cs =>
    refine ⟨c, cs, rfl, ?_⟩
    exact natRepr_digits n c (by rw [hh]; simp)

theorem digitsVal_append_digit (xs : List Char) (c : Char) :
    digitsVal (xs ++ [c]) = digitsVal xs * 10 + (c.toNat - 48) := by
  simp [digitsVal, List.foldl_append]

theorem digitsVal_natRepr (n : Nat) : digitsVal (natRepr n) = n := by
  induction n using Nat.strong_induction_on with
  | _ n ih =>
    unfold natRepr
    rw [natDigitsRev]
    by_cases h : n < 10
    · rw [dif_pos h]
      have hd := (digitChar_facts n h).2.1
      simp [digitsVal, hd]
    · rw [dif_neg h]
      rw [List.reverse_cons, digitsVal_append_digit]
      have h10 := ih (n / 10) (by omega)
      unfold natRepr at h10
      rw [h10]
      have hd := (digitChar_facts (n % 10) (by omega)).2.1
      rw [hd]
      omega

/-! ## Lemmas about the JSON reader on encoder output -/

theorem skipWs_not_ws (c : Char) (cs : List Char) (h : isWs c = false) :
    skipWs (c :: cs) = c :: cs := by simp [skipWs, h]

theorem skipWs_space (cs : List Char) : skipWs (' ' :: cs) = skipWs cs := by
  simp [skipWs, isWs]

theorem jsonSafeChar_props {c : Char} (h : jsonSafeChar c = true) :
    ¬ c = '"' ∧ ¬ c = '\\' ∧ 32 ≤ c.toNat ∧ c.toNat ≤ 126 := by
  simp only [jsonSafeChar, Bool.and_eq_true, decide_eq_true_eq] at h
  tauto

theorem jsonSafe_cons {c : Char} {cs : List Char}
    (h : jsonSafe (c :: cs) = true) :
    jsonSafeChar c = true ∧ jsonSafe cs = true := by
  simp only [jsonSafe, List.all_cons, Bool.and_eq_true] at h
  exact h

theorem parseStrBody_append : ∀ (s : List Char), ∀ (rest : List Char),
    jsonSafe s = true → parseStrBody (s ++ '"' :: rest) = some (s, rest)
  | [], rest, _ => by simp [parseStrBody]
  | c :: cs, rest, hs => by
    obtain ⟨hc, hcs⟩ := jsonSafe_cons hs
    obtain ⟨h1, h2, _, _⟩ := jsonSafeChar_props hc
    simp only [List.cons_append, parseStrBody, if_neg h1, if_neg h2,
      List.append_eq]
    rw [parseStrBody_append cs rest hcs]

theorem takeDigits_append (ds rest : List Char)
    (hds : ∀ c ∈ ds, isDigitCh c = true)
    (hrest : rest = [] ∨ ∃ c cs, rest = c :: cs ∧ isDigitCh c = false) :
    takeDigits (ds ++ rest) = (ds, rest) := by
  induction ds with
  | nil =>
    rcases hrest with rfl | ⟨c, cs, rfl, hc⟩
    · rfl
    · simp [takeDigits, hc]
  | cons x xs ih =>
    have hx : isDigitCh x = true := hds x (by simp)
    simp only [List.cons_append, takeDigits, hx, if_true, List.append_eq]
    rw [ih (fun c hc => hds c (by simp [hc]))]

theorem parseNum_natRepr (n : Nat) (rest : List Char)
    (hrest : rest = [] ∨ ∃ c cs, rest = c :: cs ∧ isDigitCh c = false) :
    parseNum (natRepr n ++ rest) = some (n, rest) := by
  have hall : ∀ c ∈ natRepr n, isDigitCh c = true := by
    intro c hc
    obtain ⟨d, hd, rfl⟩ := natRepr_digits n c hc
    exact (digitChar_facts d hd).1
  have htd := takeDigits_append (natRepr n) rest hall hrest
  obtain ⟨c0, cs0, hc0, _⟩ := natRepr_head n
  unfold parseNum
  rw [htd, hc0]
  show some (digitsVal (c0 :: cs0), rest) = some (n, rest)
  rw [← hc0, digitsVal_natRepr]

theorem parseJVal_append (v : JVal) (rest : List Char)
    (hv : jsonSafeVal v = true)
    (hrest : rest = [] ∨ ∃ c cs, rest = c :: cs ∧ isDigitCh c = false) :
    parseJVal (jVal v ++ rest) = some (v, rest) := by
  cases v with
  | str s =>
    show parseJVal (('"' :: (s ++ ['"'])) ++ rest) = _
    have hshape : ('"' :: (s ++ ['"'])) ++ rest = '"' :: (s ++ '"' :: rest) := by
      simp
    rw [hshape]
    simp only [parseJVal]
    rw [if_pos trivial]
    rw [parseStrBody_append s rest hv]
  | num n =>
    obtain ⟨c0, cs0, hc0, d, hd, hcd⟩ := natRepr_head n
    have hq : ¬ c0 = '"' := by
      rw [hcd]
      exact (digitChar_facts d hd).2.2.1
    show parseJVal (natRepr n ++ rest) = _
    rw [hc0, List.cons_append]
    simp only [parseJVal, if_neg hq]
    rw [← List.cons_append, ← hc0, parseNum_natRepr n rest hrest]

theorem skipWs_jVal_append (v : JVal) (x : List Char) :
    skipWs (jVal v ++ x) = jVal v ++ x := by
  cases v with
  | str s =>
    show skipWs (('"' :: (s ++ ['"'])) ++ x) = _
    rw [List.cons_append]
    exact skipWs_not_ws '"' _ (by decide)
  | num n =>
    obtain ⟨c0, cs0, hc0, d, hd, hcd⟩ := natRepr_head n
    have hws : isWs c0 = false := by
      rw [hcd]
      exact (digitChar_facts d hd).2.2.2.1
    show skipWs (natRepr n ++ x) = natRepr n ++ x
    rw [hc0, List.cons_append]
    exact skipWs_not_ws c0 _ hws

end AzureAuthModel

namespace AzureAuthModel

theorem jMembers_head (p : List Char × JVal) (m : List (List Char × JVal)) :
    ∃ t, jMembers (p :: m) = '"' :: t := by
  cases m with
  | nil => exact ⟨_, rfl⟩
  | cons q m' => exact ⟨_, rfl⟩

theorem jMembers_length_ge : ∀ (m : List (List Char × JVal)),
    m.length ≤ (jMembers m).length
  | [] => by simp [jMembers]
  | [p] => by
    simp [jMembers, jMemb, jStr, List.length_append]
  | p :: q :: rest => by
    have := jMembers_length_ge (q :: rest)
    simp only [jMembers, jMemb, jStr, List.length_cons, List.length_append,
      List.length_nil] at this ⊢
    omega

theorem parseMembers_jMembers (m : List (List Char × JVal)) :
    ∀ fuel : Nat, m ≠ [] → wfClaims m = true → m.length ≤ fuel →
      parseMembers fuel (jMembers m ++ ['\x7d']) = some (m, ['\x7d']) := by
  induction m with
  | nil => intro fuel hne _ _; exact absurd rfl hne
  | cons p m' ih =>
    intro fuel _hne hm hfuel
    obtain ⟨k, v⟩ := p
    have hm1 : jsonSafe k = true ∧ jsonSafeVal v = true ∧ wfClaims m' = true := by
      simp only [wfClaims, List.all_cons, Bool.and_eq_true] at hm
      exact ⟨hm.1.1, hm.1.2, hm.2⟩
    obtain ⟨hk, hv, hmrest⟩ := hm1
    cases fuel with
    | zero => simp at hfuel
    | succ f =>
      cases m' with
      | nil =>
        have hshape : jMembers [(k, v)] ++ ['\x7d']
            = '"' :: (k ++ '"' :: ':' :: ' ' :: (jVal v ++ ['\x7d'])) := by
          simp [jMembers, jMemb, jStr]
        rw [hshape]
        have hsw2 : skipWs (' ' :: (jVal v ++ ['\x7d'])) = jVal v ++ ['\x7d'] := by
          rw [skipWs_space]
          exact skipWs_jVal_append v _
        have hpv : parseJVal (jVal v ++ ['\x7d']) = some (v, ['\x7d']) :=
          parseJVal_append v _ hv (Or.inr ⟨'\x7d', [], rfl, by decide⟩)
        simp only [parseMembers, if_true, parseStrBody_append k _ hk,
          skipWs_not_ws ':' _ (by decide), hsw2, hpv,
          skipWs_not_ws '\x7d' [] (by decide)]
        exact if_neg (by decide)
      | cons q rest =>
        have hshape : jMembers ((k, v) :: q :: rest) ++ ['\x7d']
            = '"' :: (k ++ '"' :: ':' :: ' ' ::
                (jVal v ++ ',' :: ' ' ::
                  (jMembers (q :: rest) ++ ['\x7d']))) := by
          simp [jMembers, jMemb, jStr]
        rw [hshape]
        have hsw2 : skipWs (' ' :: (jVal v ++ ',' :: ' ' ::
            (jMembers (q :: rest) ++ ['\x7d'])))
            = jVal v ++ ',' :: ' ' :: (jMembers (q :: rest) ++ ['\x7d']) := by
          rw [skipWs_space]
          exact skipWs_jVal_append v _
        have hpv : parseJVal (jVal v ++ ',' :: ' ' ::
            (jMembers (q :: rest) ++ ['\x7d']))
            = some (v, ',' :: ' ' :: (jMembers (q :: rest) ++ ['\x7d'])) :=
          parseJVal_append v _ hv (Or.inr ⟨',', _, rfl, by decide⟩)
        obtain ⟨t, htl⟩ := jMembers_head q rest
        have hsw4 : skipWs (' ' :: (jMembers (q :: rest) ++ ['\x7d']))
            = jMembers (q :: rest) ++ ['\x7d'] := by
          rw [skipWs_space, htl, List.cons_append]
          exact skipWs_not_ws '"' _ (by decide)
        have hihm := ih f (by simp) hmrest (by simp at hfuel ⊢; omega)
        simp only [parseMembers, if_true, parseStrBody_append k _ hk,
          skipWs_not_ws ':' _ (by decide), hsw2, hpv,
          skipWs_not_ws ',' _ (by decide), hsw4, hihm]

theorem jParse_jEncode (m : List (List Char × JVal)) (hm : wfClaims m = true) :
    jParse (jEncode m) = some m := by
  cases m with
  | nil => rfl
  | cons p m' =>
    obtain ⟨t, htl⟩ := jMembers_head p m'
    have hfuel : (p :: m').length
        ≤ (jMembers (p :: m') ++ ['\x7d']).length + 1 := by
      have := jMembers_length_ge (p :: m')
      simp only [List.length_append, List.length_cons, List.length_nil]
        at this ⊢
      omega
    have hpm := parseMembers_jMembers (p :: m')
      ((jMembers (p :: m') ++ ['\x7d']).length + 1) (by simp) hm hfuel
    show jParse ('\x7b' :: (jMembers (p :: m') ++ ['\x7d'])) = some (p :: m')
    rw [htl] at hpm ⊢
    simp only [List.cons_append] at hpm ⊢
    simp only [jParse, skipWs_not_ws '\x7b' _ (by decide),
      skipWs_not_ws '"' _ (by decide), if_true, hpm,
      skipWs_not_ws '\x7d' [] (by decide)]
    rw [if_neg (by decide)]
    rfl

/-! ## ASCII bounds of the encoder output -/

theorem jVal_ascii (v : JVal) (hv : jsonSafeVal v = true) :
    ∀ c ∈ jVal v, c.toNat < 256 := by
  cases v with
  | str s =>
    intro c hc
    simp only [jVal, jStr, List.mem_cons, List.mem_append,
      List.not_mem_nil, or_false] at hc
    rcases hc with rfl | hc | rfl
    · decide
    · have := (jsonSafeChar_props (List.all_eq_true.mp hv c hc)).2.2.2
      omega
    · decide
  | num n =>
    intro c hc
    obtain ⟨d, hd, rfl⟩ := natRepr_digits n c hc
    have := (digitChar_facts d hd).2.2.2.2
    omega

theorem jMemb_ascii (p : List Char × JVal) (h1 : jsonSafe p.1 = true)
    (h2 : jsonSafeVal p.2 = true) : ∀ c ∈ jMemb p, c.toNat < 256 := by
  intro c hc
  simp only [jMemb, jStr, List.mem_append, List.mem_cons,
    List.not_mem_nil, or_false] at hc
  rcases hc with (rfl | hc | rfl) | rfl | rfl | hc
  · decide
  · have := (jsonSafeChar_props (List.all_eq_true.mp h1 c hc)).2.2.2
    omega
  · decide
  · decide
  · decide
  · exact jVal_ascii p.2 h2 c hc

theorem jMembers_ascii : ∀ (m : List (List Char × JVal)),
    wfClaims m = true → ∀ c ∈ jMembers m, c.toNat < 256
  | [], _, c, hc => by simp [jMembers] at hc
  | [p], hm, c, hc => by
    have h1 : jsonSafe p.1 = true ∧ jsonSafeVal p.2 = true := by
      simp only [wfClaims, List.all_cons, List.all_nil, Bool.and_eq_true] at hm
      exact ⟨hm.1.1, hm.1.2⟩
    rw [show jMembers [p] = jMemb p from rfl] at hc
    exact jMemb_ascii p h1.1 h1.2 c hc
  | p :: q :: rest, hm, c, hc => by
    have h1 : jsonSafe p.1 = true ∧ jsonSafeVal p.2 = true
        ∧ wfClaims (q :: rest) = true := by
      simp only [wfClaims, List.all_cons, Bool.and_eq_true] at hm ⊢
      exact ⟨hm.1.1, hm.1.2, hm.2⟩
    rw [show jMembers (p :: q :: rest)
        = jMemb p ++ ',' :: ' ' :: jMembers (q :: rest) from rfl] at hc
    simp only [List.mem_append, List.mem_cons] at hc
    rcases hc with hc | rfl | rfl | hc
    · exact jMemb_ascii p h1.1 h1.2.1 c hc
    · decide
    · decide
    · exact jMembers_ascii (q :: rest) h1.2.2 c hc

theorem jEncode_ascii (m : List (List Char × JVal)) (hm : wfClaims m = true) :
    ∀ c ∈ jEncode m, c.toNat < 256 := by
  intro c hc
  simp only [jEncode, List.mem_cons, List.mem_append,
    List.not_mem_nil, or_false] at hc
  rcases hc with rfl | hc | rfl
  · decide
  · exact jMembers_ascii m hm c hc
  · decide

end AzureAuthModel

namespace AzureAuthModel

/-! ## Claim theorems (diagnostics claims) -/

/-- Claim C9 (confirmed): for every JSON-safe claims map, serializing it,
base64-encoding the bytes, stripping the padding, and placing the result
as the middle segment of a three-segment dotted token makes the diagnostic
decoder restore the standard padding, base64-decode the middle segment and
recover exactly the original claims map. -/
theorem c9_jwt_payload_roundtrip (m : List (List Char × JVal))
    (header sig : List Char) (hm : wfClaims m = true)
    (hh : ∀ c ∈ header, ¬ c = '.') (hs : ∀ c ∈ sig, ¬ c = '.') :
    _print_token_details (String.mk (header ++ '.' ::
        (stripPad (b64encode ((jEncode m).map Char.toNat)) ++ '.' :: sig)))
      = TokenDetails.decoded m := by
  have hb256 : ∀ x ∈ (jEncode m).map Char.toNat, x < 256 := by
    intro x hx
    simp only [List.mem_map] at hx
    obtain ⟨c, hc, rfl⟩ := hx
    exact jEncode_ascii m hm c hc
  have hmid_nodot : ∀ c ∈ stripPad (b64encode ((jEncode m).map Char.toNat)),
      ¬ c = '.' := by
    intro c hc
    obtain ⟨hc1, hc2⟩ := mem_takeWhile _ c hc
    rcases b64encode_mem _ hb256 c hc1 with ⟨n, hn, rfl⟩ | rfl
    · exact b64char_ne_dot n hn
    · simp at hc2
  have hsplit : splitDot (header ++ '.' ::
      (stripPad (b64encode ((jEncode m).map Char.toNat)) ++ '.' :: sig))
      = [header, stripPad (b64encode ((jEncode m).map Char.toNat)), sig] := by
    rw [splitDot_append_dot header _ hh,
      splitDot_append_dot _ _ hmid_nodot, splitDot_no_dot sig hs]
  have hmap : ((jEncode m).map Char.toNat).map Char.ofNat = jEncode m := by
    rw [List.map_map]
    have hco : Char.ofNat ∘ Char.toNat = id := funext Char.ofNat_toNat
    rw [hco, List.map_id]
  have hbody : _token_details_body (header ++ '.' ::
      (stripPad (b64encode ((jEncode m).map Char.toNat)) ++ '.' :: sig))
      = Except.ok (TokenDetails.decoded m) := by
    unfold _token_details_body
    rw [hsplit]
    show (match b64decode (restorePad (stripPad
        (b64encode ((jEncode m).map Char.toNat)))) with
      | none => Except.error DecodeExc.binasciiError
      | some bytes =>
        match jParse (bytes.map Char.ofNat) with
        | none => Except.error DecodeExc.jsonError
        | some claims => Except.ok (TokenDetails.decoded claims)) = _
    rw [b64decode_restorePad _ hb256]
    show (match jParse (((jEncode m).map Char.toNat).map Char.ofNat) with
      | none => Except.error DecodeExc.jsonError
      | some claims => Except.ok (TokenDetails.decoded claims)) = _
    rw [hmap, jParse_jEncode m hm]
  show (match _token_details_body (header ++ '.' ::
      (stripPad (b64encode ((jEncode m).map Char.toNat)) ++ '.' :: sig)) with
    | Except.ok d => d
    | Except.error _ => TokenDetails.decodeFailed) = TokenDetails.decoded m
  rw [hbody]

/-- Witness for C9 at a concrete claims map, header and signature. -/
theorem c9_jwt_payload_roundtrip_witness :
    _print_token_details (String.mk ("hd".toList ++ '.' ::
        (stripPad (b64encode ((jEncode
            [("aud".toList, JVal.str "st".toList),
             ("exp".toList, JVal.num 1712)]).map Char.toNat))
          ++ '.' :: "sg".toList)))
      = TokenDetails.decoded
          [("aud".toList, JVal.str "st".toList),
           ("exp".toList, JVal.num 1712)] :=
  c9_jwt_payload_roundtrip
    [("aud".toList, JVal.str "st".toList), ("exp".toList, JVal.num 1712)]
    "hd".toList "sg".toList (by decide) (by decide) (by decide)

/-- Claim C8 (confirmed): every exception inside the diagnostic decoder's
body is swallowed into the informational decode-failed notice, a wrong
segment count yields only the not-a-JWT notice, and the diagnostics never
affect the per-repo attachment outcomes: a verbose run (which invokes the
decoder) produces exactly the same outcomes as a non-verbose run. -/
theorem c8_diagnostics_never_interfere (t : String) (sections : List String)
    (repos : String → Option Repo) (envToken su : Option String)
    (world : Invocation → CliOutcome) :
    (∀ e, _token_details_body t.toList = Except.error e →
        _print_token_details t = TokenDetails.decodeFailed)
      ∧ ((splitDot t.toList).length ≠ 3 →
          _print_token_details t = TokenDetails.notJwt)
      ∧ (AzureAuth.config true sections repos envToken su world).outcomes
        = (AzureAuth.config false sections repos envToken su world).outcomes := by
  refine ⟨?_, ?_,
    configGo_verbose_outcomes repos su world (parse_config sections) envToken⟩
  · intro e he
    unfold _print_token_details
    rw [he]
  · intro h3
    have hbody : _token_details_body t.toList
        = Except.ok TokenDetails.notJwt := by
      unfold _token_details_body
      rcases hsp : splitDot t.toList with _ | ⟨a, _ | ⟨b, _ | ⟨c, _ | ⟨d, tl⟩⟩⟩⟩
      · rfl
      · rfl
      · rfl
      · exact absurd (by rw [hsp]; rfl) h3
      · rfl
    unfold _print_token_details
    rw [hbody]

/-- Witness for C8: a one-segment token is reported as not a JWT, and the
verbose run's outcomes equal the quiet run's. -/
theorem c8_diagnostics_never_interfere_witness :
    _print_token_details "abc" = TokenDetails.notJwt
      ∧ (AzureAuth.config true ["r1"] regTwo none none worldTok).outcomes
        = (AzureAuth.config false ["r1"] regTwo none none worldTok).outcomes :=
  ⟨(c8_diagnostics_never_interfere "abc" ["r1"] regTwo none none
      worldTok).2.1 (by decide),
   (c8_diagnostics_never_interfere "abc" ["r1"] regTwo none none
      worldTok).2.2⟩

end AzureAuthModel
